import Mathlib

/-!
Verification development for the FASTAflow repository (FASTA ingestion,
per-sequence statistics, chart data).

The definitions below are shallow embeddings of the Python source:

* `calculate_gc_content`, `calculate_nucleotide_frequency`,
  `translate_to_protein`, `amino_acids_frequencies` from
  `FASTAflow/modules/results.py`;
* `protein_translation` (explicit codon table) from `FASTAflow/results.py`
  (method `Results.protein_translation`);
* `store_fasta_in_db` upsert logic from `FASTAflow/read_fasta.py`;
* the analysis pass of the `result` route from `FASTAflow/modules/pages.py`;
* the GC-by-position series of `gc_plot` from `FASTAflow/modules/plots.py`;
* a FASTA parser modelled from the specification, standing in for the
  external `Bio.SeqIO` parsing call.

Python floats are modelled by `ℚ`; Python `round(x, 2)` (round half to
even) is `round2`.  Python exceptions are modelled with `Except` exactly
where a claim is about raising behaviour.
-/

/-- Python `round` to an integer: round half to even (banker's rounding),
the rounding rule the spec fixes for all percentages. -/
def roundHalfEven (q : ℚ) : ℤ :=
  if q - Int.floor q < 1/2 then Int.floor q
  else if 1/2 < q - Int.floor q then Int.floor q + 1
  else if Int.floor q % 2 = 0 then Int.floor q else Int.floor q + 1

/-- Python `round(x, 2)`: round to two decimal places, half to even. -/
def round2 (q : ℚ) : ℚ := (roundHalfEven (q * 100) : ℚ) / 100

/-- Python division, which raises `ZeroDivisionError` on a zero
denominator; the error is modelled as the `Except.error` case. -/
def divChecked (a b : ℚ) : Except String ℚ :=
  if b = 0 then Except.error "ZeroDivisionError" else Except.ok (a / b)

/-- Modelled from the spec: the counting core of `Bio.SeqUtils.gc_fraction`
as used by `calculate_gc_content` (Biopython is an external library, not
part of this repository).  Per the spec it is the fraction of characters
of the sequence that are exactly `G` or `C` (case-sensitive). -/
def gc_fraction (s : String) : ℚ :=
  ((s.data.count 'G' + s.data.count 'C' : ℕ) : ℚ) / (s.length : ℚ)

/-- Embeds `calculate_gc_content` from `FASTAflow/modules/results.py`:
an empty sequence returns `0.0` via the explicit guard (taken before any
division happens); otherwise `round(gc_fraction(sequence) * 100, 2)`. -/
def calculate_gc_content (s : String) : ℚ :=
  if s = "" then 0
  else round2 (gc_fraction s * 100)

/-- One step of the Python counting loop
`counts[c] = counts.get(c, 0) + 1` on an insertion-ordered dict,
represented as an association list. -/
def bump : List (Char × ℕ) → Char → List (Char × ℕ)
  | [], c => [(c, 1)]
  | (k, v) :: rest, c =>
      if k = c then (k, v + 1) :: rest else (k, v) :: bump rest c

/-- The whole counting loop over a character list. -/
def countChars (l : List Char) : List (Char × ℕ) := l.foldl bump []

/-- Embeds `calculate_nucleotide_frequency` from
`FASTAflow/modules/results.py`: empty input returns an empty dict;
otherwise each counted character maps to
`round((count / seq_len) * 100, 2)`. -/
def calculate_nucleotide_frequency (s : String) : List (Char × ℚ) :=
  if s.length = 0 then []
  else (countChars s.data).map
    (fun p => (p.1, round2 ((p.2 : ℚ) / (s.length : ℚ) * 100)))

/-- Embeds `amino_acids_frequencies` from `FASTAflow/modules/results.py`.
There is no empty-input guard, so the division by `len(protein_seq)` is
kept checked: reaching it with a zero length would be the
`ZeroDivisionError` case. -/
def amino_acids_frequencies (protein_seq : String) :
    Except String (List (Char × ℚ)) :=
  (countChars protein_seq.data).mapM
    (fun p => (divChecked (p.2 : ℚ) (protein_seq.length : ℚ)).map
      (fun q => (p.1, round2 (q * 100))))

/-- Embeds `translate_to_protein` from `FASTAflow/modules/results.py`.
The body of the `try` block, `str(Seq(sequence).translate())`, is a call
into the external Biopython library; it is abstracted as the argument
`biotranslate`, whose `Except.error` case models a raised exception.  The
`except` clause returns `'?' * (len(sequence) // 3)`.  The embedding is a
total function: no error escapes to the caller. -/
def translate_to_protein (biotranslate : String → Except String String)
    (sequence : String) : String :=
  match biotranslate sequence with
  | Except.ok p => p
  | Except.error _ => String.mk (List.replicate (sequence.length / 3) '?')

/-- Embeds the `aa_table` dict literal from `Results.protein_translation`
in `FASTAflow/results.py`, in the source's entry order. -/
def aa_table : List (String × Char) :=
  [("ATA", 'I'), ("ATC", 'I'), ("ATT", 'I'), ("ATG", 'M'),
   ("ACA", 'T'), ("ACC", 'T'), ("ACG", 'T'), ("ACT", 'T'),
   ("AAC", 'N'), ("AAT", 'N'), ("AAA", 'K'), ("AAG", 'K'),
   ("AGC", 'S'), ("AGT", 'S'), ("AGA", 'R'), ("AGG", 'R'),
   ("CTA", 'L'), ("CTC", 'L'), ("CTG", 'L'), ("CTT", 'L'),
   ("CCA", 'P'), ("CCC", 'P'), ("CCG", 'P'), ("CCT", 'P'),
   ("CAC", 'H'), ("CAT", 'H'), ("CAA", 'Q'), ("CAG", 'Q'),
   ("CGA", 'R'), ("CGC", 'R'), ("CGG", 'R'), ("CGT", 'R'),
   ("GTA", 'V'), ("GTC", 'V'), ("GTG", 'V'), ("GTT", 'V'),
   ("GCA", 'A'), ("GCC", 'A'), ("GCG", 'A'), ("GCT", 'A'),
   ("GAC", 'D'), ("GAT", 'D'), ("GAA", 'E'), ("GAG", 'E'),
   ("GGA", 'G'), ("GGC", 'G'), ("GGG", 'G'), ("GGT", 'G'),
   ("TCA", 'S'), ("TCC", 'S'), ("TCG", 'S'), ("TCT", 'S'),
   ("TTC", 'F'), ("TTT", 'F'), ("TTA", 'L'), ("TTG", 'L'),
   ("TAC", 'Y'), ("TAT", 'Y'), ("TAA", '*'), ("TAG", '*'),
   ("TGC", 'C'), ("TGT", 'C'), ("TGA", '*'), ("TGG", 'W')]

/-- The loop `for i in range(0, len(seq), 3): codon = seq[i:i+3];
amino_acid += aa_table.get(codon, '?')` over the character list:
each step consumes up to three characters and emits one output
character (also for a trailing slice of length 1 or 2). -/
def translateChunks : List Char → List Char
  | [] => []
  | [a] => [(aa_table.lookup (String.mk [a])).getD '?']
  | [a, b] => [(aa_table.lookup (String.mk [a, b])).getD '?']
  | a :: b :: c :: rest =>
      ((aa_table.lookup (String.mk [a, b, c])).getD '?')
        :: translateChunks rest

/-- Embeds `Results.protein_translation` from `FASTAflow/results.py`
for a single sequence (the method applies this same per-sequence loop to
each entry of its dictionary). -/
def protein_translation (seq : String) : String :=
  String.mk (translateChunks seq.data)

/-- The per-position series computed by `gc_plot` in
`FASTAflow/modules/plots.py`: for `i in range(1, len(sequence) + 1)` it
appends `(sequence[:i].count('G') + sequence[:i].count('C')) / i * 100`. -/
def gc_plot_series (s : String) : List ℚ :=
  (List.range s.length).map (fun j =>
    (((s.data.take (j + 1)).count 'G' + (s.data.take (j + 1)).count 'C' : ℕ) : ℚ)
      / ((j + 1 : ℕ) : ℚ) * 100)

/-- Embeds the `FastaEntry` model from `FASTAflow/models.py`.  The four
derived columns (`sequence_length`, `gc_content`, `nuc_freq`,
`protein_seq`) are nullable and `none` until an analysis pass fills
them.  `upload_date` and the never-written `codon_freq` column play no
role in any claim and are omitted. -/
structure FastaEntry where
  id : String
  description : String
  sequence : String
  filepath : String
  sequence_length : Option Nat
  gc_content : Option ℚ
  nuc_freq : Option (List (Char × ℚ))
  protein_seq : Option String
deriving Repr, DecidableEq

/-- Embeds the per-record body of `store_fasta_in_db` from
`FASTAflow/read_fasta.py`: query the store for an entry with the given
id (`filter_by(id=record.id).first()`); if found, reuse it untouched;
otherwise append a fresh entry whose derived fields are unset.  The
database session is modelled as the list of persisted entries. -/
def store_fasta_in_db_upsert (store : List FastaEntry)
    (id description sequence filepath : String) :
    List FastaEntry × FastaEntry :=
  match store.find? (fun e => e.id == id) with
  | some e => (store, e)
  | none =>
      let e : FastaEntry :=
        ⟨id, description, sequence, filepath, none, none, none, none⟩
      (store ++ [e], e)

/-- Embeds the per-entry body of the `result` route (POST branch) in
`FASTAflow/modules/pages.py`: it assigns `entry.gc_content`,
`entry.nuc_freq`, `entry.sequence_length` and `entry.protein_seq` from
the entry's sequence, all four in one pass. -/
def annotate_entry (biotranslate : String → Except String String)
    (e : FastaEntry) : FastaEntry :=
  { e with
    gc_content := some (calculate_gc_content e.sequence)
    nuc_freq := some (calculate_nucleotide_frequency e.sequence)
    sequence_length := some e.sequence.length
    protein_seq := some (translate_to_protein biotranslate e.sequence) }

/-- Embeds the `result` route's batch analysis from
`FASTAflow/modules/pages.py`: the query
`filter(FastaEntry.id.in_(selected_sequences)).all()` selects exactly the
stored entries whose id is in the submitted list, and each of them is
annotated in place; every other entry is untouched. -/
def result_post (biotranslate : String → Except String String)
    (selected : List String) (store : List FastaEntry) :
    List FastaEntry :=
  store.map (fun e =>
    if e.id ∈ selected then annotate_entry biotranslate e else e)

/-- The all-or-nothing shape of the four derived columns: either every
one of them is populated or none is. -/
def allOrNothing (e : FastaEntry) : Bool :=
  (e.sequence_length.isSome && e.gc_content.isSome &&
    e.nuc_freq.isSome && e.protein_seq.isSome) ||
  (e.sequence_length.isNone && e.gc_content.isNone &&
    e.nuc_freq.isNone && e.protein_seq.isNone)

/-- A record produced by FASTA parsing, before storage. -/
structure ParsedRecord where
  id : String
  description : String
  sequence : String
deriving Repr, DecidableEq

/-- A line beginning with the FASTA header marker. -/
def isHeader (line : String) : Bool :=
  match line.data with
  | [] => false
  | c :: _ => c == '>'

/-- The identifier of a header line: the text after the marker up to the
first whitespace character. -/
def headerId (line : String) : String :=
  String.mk ((line.data.drop 1).takeWhile (fun c => !c.isWhitespace))

/-- Leading and trailing whitespace removal applied to each sequence
line before concatenation. -/
def stripWS (line : String) : String :=
  String.mk (((line.data.dropWhile Char.isWhitespace).reverse.dropWhile
    Char.isWhitespace).reverse)

/-- Modelled from the spec: one line of the FASTA parsing that
`store_fasta_in_db` delegates to `Bio.SeqIO.parse` (the Biopython
library is external and `FASTAflow/modules/read_fasta.py` is not in the
repository snapshot).  State: records finished so far, plus the record
being accumulated, if any.  A header line closes the open record and
opens a new one; a non-header line is appended, stripped, to the open
record, and is ignored when no record is open yet. -/
def parseFastaStep (st : List ParsedRecord × Option ParsedRecord)
    (line : String) : List ParsedRecord × Option ParsedRecord :=
  if isHeader line then
    match st.2 with
    | none => (st.1, some ⟨headerId line, line, ""⟩)
    | some r => (st.1 ++ [r], some ⟨headerId line, line, ""⟩)
  else
    match st.2 with
    | none => st
    | some r => (st.1, some ⟨r.id, r.description, r.sequence ++ stripWS line⟩)

/-- Modelled from the spec: the whole FASTA parse of a list of input
lines, per the parsing rule of the specification. -/
def parseFasta (lines : List String) : List ParsedRecord :=
  match lines.foldl parseFastaStep ([], none) with
  | (recs, none) => recs
  | (recs, some r) => recs ++ [r]

/-- Rounding an integer value changes nothing. -/
lemma roundHalfEven_intCast (n : ℤ) : roundHalfEven (n : ℚ) = n := by
  simp [roundHalfEven]

/-- `round2` of an integer value changes nothing. -/
lemma round2_intCast (n : ℤ) : round2 (n : ℚ) = n := by
  have h : ((n : ℚ) * 100) = ((n * 100 : ℤ) : ℚ) := by push_cast; ring
  rw [round2, h, roundHalfEven_intCast]
  push_cast
  ring

example : calculate_gc_content "GCGC" = 100 := by
  have hc : (("GCGC" : String).data.count 'G'
      + ("GCGC" : String).data.count 'C' : ℕ) = 4 := by decide
  have hl : ("GCGC" : String).length = 4 := by decide
  rw [calculate_gc_content, if_neg (by decide), gc_fraction, hc, hl]
  have : ((4 : ℕ) : ℚ) / ((4 : ℕ) : ℚ) * 100 = ((100 : ℤ) : ℚ) := by norm_num
  rw [this, round2_intCast]
  norm_num

example : protein_translation "ATGAAATAG" = "MK*" := by decide
example : protein_translation "AT" = "?" := by decide

/-- Folding the parser step over non-header lines from the initial state
does nothing: no record is open, so every such line is dropped. -/
lemma parseFastaStep_foldl_no_header (junk : List String)
    (h : ∀ l ∈ junk, isHeader l = false) :
    junk.foldl parseFastaStep ([], none) = ([], none) := by
  induction junk with
  | nil => rfl
  | cons a t ih =>
      have ha : isHeader a = false := h a (List.mem_cons_self a t)
      have ht : ∀ l ∈ t, isHeader l = false :=
        fun l hl => h l (List.mem_cons_of_mem a hl)
      simp only [List.foldl_cons, parseFastaStep, ha]
      exact ih ht

/-- C5: for every input text, the FASTA parser ignores lines that appear
before the first header line, and an input with zero header lines yields
zero records as a valid outcome (the parser is a total function into
record lists, so no error is possible). -/
theorem parseFasta_ignores_preheader (junk lines : List String)
    (h : ∀ l ∈ junk, isHeader l = false) :
    parseFasta (junk ++ lines) = parseFasta lines ∧ parseFasta junk = [] := by
  constructor
  · rw [parseFasta, parseFasta, List.foldl_append,
      parseFastaStep_foldl_no_header junk h]
  · rw [parseFasta, parseFastaStep_foldl_no_header junk h]

/-- Witness for C5 at a concrete input: two junk lines before the first
header are dropped, and junk alone parses to zero records. -/
theorem parseFasta_ignores_preheader_witness :
    (∀ l ∈ ["junk line", ""], isHeader l = false) ∧
      (parseFasta (["junk line", ""] ++ [">s1 d", "ATGC"]) =
          parseFasta [">s1 d", "ATGC"] ∧
        parseFasta ["junk line", ""] = []) :=
  ⟨by decide, parseFasta_ignores_preheader ["junk line", ""]
    [">s1 d", "ATGC"] (by decide)⟩

/-- C6: whenever the inner (external) translation call fails, the
`except` clause of `translate_to_protein` turns the whole result into
`'?'` repeated `len(seq) // 3` times; since the embedding is a total
function, no error ever reaches the caller. -/
theorem translate_to_protein_error_fallback
    (biotranslate : String → Except String String) (seq msg : String)
    (h : biotranslate seq = Except.error msg) :
    translate_to_protein biotranslate seq =
      String.mk (List.replicate (seq.length / 3) '?') := by
  rw [translate_to_protein, h]

/-- Witness for C6: a concrete always-failing inner translation on a
5-character sequence produces `"?"` (5 // 3 = 1). -/
theorem translate_to_protein_error_fallback_witness :
    ((fun _ : String => (Except.error "boom" : Except String String))
        "ATGAA" = Except.error "boom") ∧
      translate_to_protein (fun _ => Except.error "boom") "ATGAA" =
        String.mk (List.replicate ("ATGAA".length / 3) '?') :=
  ⟨rfl, translate_to_protein_error_fallback _ "ATGAA" "boom" rfl⟩

/-- If the store has an entry with the id, the upsert is a no-op
returning that entry. -/
lemma upsert_eq_of_find?_some (store : List FastaEntry)
    (id d s f : String) (e : FastaEntry)
    (h : store.find? (fun x => x.id == id) = some e) :
    store_fasta_in_db_upsert store id d s f = (store, e) := by
  rw [store_fasta_in_db_upsert, h]

/-- If the store has no entry with the id, the upsert appends a fresh
entry whose derived fields are all unset. -/
lemma upsert_eq_of_find?_none (store : List FastaEntry)
    (id d s f : String)
    (h : store.find? (fun x => x.id == id) = none) :
    store_fasta_in_db_upsert store id d s f =
      (store ++ [⟨id, d, s, f, none, none, none, none⟩],
        ⟨id, d, s, f, none, none, none, none⟩) := by
  rw [store_fasta_in_db_upsert, h]

/-- C4: ingestion is idempotent per identifier.  Starting from a store
holding at most one entry with the given id (the id column is the
primary key), upserting twice changes nothing the second time, the
second returned record equals the first, exactly one record with the id
remains, an existing record is returned untouched, and a fresh record is
created with all derived fields unset. -/
theorem store_upsert_idempotent (store : List FastaEntry)
    (id d1 s1 f1 d2 s2 f2 : String)
    (hone : store.countP (fun e => e.id == id) ≤ 1) :
    (store_fasta_in_db_upsert
        (store_fasta_in_db_upsert store id d1 s1 f1).1 id d2 s2 f2).1 =
      (store_fasta_in_db_upsert store id d1 s1 f1).1 ∧
    (store_fasta_in_db_upsert
        (store_fasta_in_db_upsert store id d1 s1 f1).1 id d2 s2 f2).2 =
      (store_fasta_in_db_upsert store id d1 s1 f1).2 ∧
    ((store_fasta_in_db_upsert store id d1 s1 f1).1).countP
        (fun e => e.id == id) = 1 ∧
    (∀ e, store.find? (fun x => x.id == id) = some e →
      (store_fasta_in_db_upsert store id d1 s1 f1).2 = e ∧
        (store_fasta_in_db_upsert store id d1 s1 f1).1 = store) ∧
    (store.find? (fun x => x.id == id) = none →
      (store_fasta_in_db_upsert store id d1 s1 f1).2 =
          ⟨id, d1, s1, f1, none, none, none, none⟩ ∧
        (store_fasta_in_db_upsert store id d1 s1 f1).1 =
          store ++ [⟨id, d1, s1, f1, none, none, none, none⟩]) := by
  obtain he | ⟨e, he⟩ :=
    Option.eq_none_or_eq_some (store.find? (fun x => x.id == id))
  · have h1 := upsert_eq_of_find?_none store id d1 s1 f1 he
    have hz : store.countP (fun e => e.id == id) = 0 :=
      List.countP_eq_zero.mpr (List.find?_eq_none.mp he)
    have hfind2 : (store ++
        [(⟨id, d1, s1, f1, none, none, none, none⟩ : FastaEntry)]).find?
          (fun x => x.id == id) =
        some ⟨id, d1, s1, f1, none, none, none, none⟩ := by
      rw [List.find?_append, he]
      simp [List.find?]
    have h2 := upsert_eq_of_find?_some _ id d2 s2 f2 _ hfind2
    refine ⟨?_, ?_, ?_, ?_, ?_⟩
    · simp only [h1]
      rw [h2]
    · simp only [h1]
      rw [h2]
    · simp only [h1, List.countP_append, hz]
      simp [List.countP, List.countP.go]
    · intro e' he'
      exact Option.noConfusion (he.symm.trans he')
    · intro _
      exact ⟨by simp [h1], by simp [h1]⟩
  · have h1 := upsert_eq_of_find?_some store id d1 s1 f1 e he
    have hmem : e ∈ store := List.mem_of_find?_eq_some he
    have hpe := List.find?_some he
    have hpos : 0 < store.countP (fun e => e.id == id) :=
      List.countP_pos_iff.mpr ⟨e, hmem, hpe⟩
    have h2 := upsert_eq_of_find?_some store id d2 s2 f2 e he
    refine ⟨?_, ?_, ?_, ?_, ?_⟩
    · simp only [h1]
      rw [h2]
    · simp only [h1]
      rw [h2]
    · simp only [h1]
      omega
    · intro e' he'
      cases Option.some.inj (he.symm.trans he')
      exact ⟨by simp [h1], by simp [h1]⟩
    · intro hno
      exact Option.noConfusion (he.symm.trans hno)

/-- Witness for C4 at a concrete input: the empty store, then two
upserts of the same id with differing metadata. -/
theorem store_upsert_idempotent_witness :
    (([] : List FastaEntry).countP (fun e => e.id == "s1") ≤ 1) ∧
      ((store_fasta_in_db_upsert
          (store_fasta_in_db_upsert [] "s1" "d1" "ATGC" "a.fasta").1
          "s1" "other" "GGGG" "b.fasta").1 =
        (store_fasta_in_db_upsert [] "s1" "d1" "ATGC" "a.fasta").1 ∧
      (store_fasta_in_db_upsert
          (store_fasta_in_db_upsert [] "s1" "d1" "ATGC" "a.fasta").1
          "s1" "other" "GGGG" "b.fasta").2 =
        (store_fasta_in_db_upsert [] "s1" "d1" "ATGC" "a.fasta").2 ∧
      ((store_fasta_in_db_upsert [] "s1" "d1" "ATGC" "a.fasta").1).countP
          (fun e => e.id == "s1") = 1 ∧
      (∀ e, ([] : List FastaEntry).find? (fun x => x.id == "s1") = some e →
        (store_fasta_in_db_upsert [] "s1" "d1" "ATGC" "a.fasta").2 = e ∧
          (store_fasta_in_db_upsert [] "s1" "d1" "ATGC" "a.fasta").1 = []) ∧
      (([] : List FastaEntry).find? (fun x => x.id == "s1") = none →
        (store_fasta_in_db_upsert [] "s1" "d1" "ATGC" "a.fasta").2 =
            ⟨"s1", "d1", "ATGC", "a.fasta", none, none, none, none⟩ ∧
          (store_fasta_in_db_upsert [] "s1" "d1" "ATGC" "a.fasta").1 =
            [] ++ [⟨"s1", "d1", "ATGC", "a.fasta",
              none, none, none, none⟩])) :=
  ⟨by decide, store_upsert_idempotent [] "s1" "d1" "ATGC" "a.fasta"
    "other" "GGGG" "b.fasta" (by decide)⟩

/-- C9: on the empty protein string `amino_acids_frequencies` returns an
empty mapping without raising: the counts dict is empty, so the checked
division by `len(protein_seq)` is never evaluated and the result is
`ok`, not the `ZeroDivisionError` case. -/
theorem amino_acids_frequencies_empty_ok :
    amino_acids_frequencies "" = Except.ok [] := rfl

/-- Counting `G` and counting `C` separately adds up to one pass that
counts characters that are either. -/
lemma count_G_add_count_C (l : List Char) :
    l.count 'G' + l.count 'C' = l.countP (fun c => c == 'G' || c == 'C') := by
  induction l with
  | nil => rfl
  | cons a t ih =>
      by_cases hG : a = 'G' <;> by_cases hC : a = 'C' <;>
        simp [List.count_cons, List.countP_cons, hG, hC] <;> omega

/-- A string is empty exactly when its length is zero. -/
lemma string_eq_empty_iff_length (s : String) : s = "" ↔ s.length = 0 := by
  constructor
  · intro h
    rw [h]
    rfl
  · intro h
    cases s with
    | mk data =>
        have hlen : data.length = 0 := h
        rw [List.length_eq_zero.mp hlen]

/-- C2: `calculate_gc_content` returns, for every sequence, the
percentage of characters that are exactly `G` or `C` (case-sensitive),
rounded to two decimals, and `0.0` for the empty sequence via the
explicit guard (so the division for the percentage is never reached on
empty input); with the spec's concrete examples. -/
theorem calculate_gc_content_correct :
    (∀ s : String, calculate_gc_content s =
      if s.length = 0 then 0
      else round2 (((s.data.countP (fun c => c == 'G' || c == 'C') : ℕ) : ℚ)
        / (s.length : ℚ) * 100)) ∧
    calculate_gc_content "" = 0 ∧
    calculate_gc_content "GCGC" = 100 ∧
    calculate_gc_content "ATAT" = 0 ∧
    calculate_gc_content "ATGC" = 50 := by
  have key : ∀ s : String, calculate_gc_content s =
      if s.length = 0 then 0
      else round2 (((s.data.countP (fun c => c == 'G' || c == 'C') : ℕ) : ℚ)
        / (s.length : ℚ) * 100) := by
    intro s
    rw [calculate_gc_content]
    by_cases h : s = ""
    · rw [if_pos h, if_pos ((string_eq_empty_iff_length s).mp h)]
    · rw [if_neg h, if_neg (fun hl =>
        h ((string_eq_empty_iff_length s).mpr hl))]
      rw [gc_fraction, count_G_add_count_C]
  have ex : ∀ (s : String) (k n m : ℕ),
      s.data.countP (fun c => c == 'G' || c == 'C') = k →
      s.length = n → n ≠ 0 → k * 100 = m * n →
      calculate_gc_content s = (m : ℚ) := by
    intro s k n m hk hn hn0 hm
    rw [key s, if_neg (by rw [hn]; exact hn0), hk, hn]
    have hn' : ((n : ℕ) : ℚ) ≠ 0 := by exact_mod_cast hn0
    have hval : ((k : ℕ) : ℚ) / ((n : ℕ) : ℚ) * 100 = ((m : ℤ) : ℚ) := by
      rw [div_mul_eq_mul_div, div_eq_iff hn']
      push_cast
      exact_mod_cast hm
    rw [hval, round2_intCast]
    push_cast
    ring
  refine ⟨key, by rw [key]; rfl, ?_, ?_, ?_⟩
  · have := ex "GCGC" 4 4 100 (by decide) (by decide) (by decide) (by decide)
    exact_mod_cast this
  · have := ex "ATAT" 0 4 0 (by decide) (by decide) (by decide) (by decide)
    exact_mod_cast this
  · have := ex "ATGC" 2 4 50 (by decide) (by decide) (by decide) (by decide)
    exact_mod_cast this

/-- C10: the cumulative GC-by-position series of `gc_plot` has exactly
`len(sequence)` points, and its `i`-th point (0-based `i`) is the GC
percentage of the length-`i+1` prefix, `gc_count(seq[0:i+1]) / (i+1) *
100`, with the GC count written as a single case-sensitive pass. -/
theorem gc_plot_series_correct (s : String) (i : ℕ) :
    (gc_plot_series s).length = s.length ∧
    (gc_plot_series s)[i]? =
      if i < s.length then
        some ((((s.data.take (i + 1)).countP
            (fun c => c == 'G' || c == 'C') : ℕ) : ℚ)
          / ((i + 1 : ℕ) : ℚ) * 100)
      else none := by
  constructor
  · simp [gc_plot_series]
  · by_cases h : i < s.length
    · rw [if_pos h, gc_plot_series, List.getElem?_map,
        List.getElem?_range h]
      simp [count_G_add_count_C]
    · rw [if_neg h, gc_plot_series, List.getElem?_map]
      have hnone : (List.range s.length)[i]? = none := by
        rw [List.getElem?_eq_none]
        simpa using Nat.le_of_not_lt h
      rw [hnone]
      rfl

/-- Bumping a character's count makes its looked-up count one more than
before (zero when absent). -/
lemma bump_lookup_self (m : List (Char × ℕ)) (c : Char) :
    (bump m c).lookup c = some ((m.lookup c).getD 0 + 1) := by
  induction m with
  | nil => simp [bump, List.lookup]
  | cons p rest ih =>
      obtain ⟨k, v⟩ := p
      by_cases h : k = c
      · subst h
        simp [bump, List.lookup]
      · simp [bump, List.lookup, h, beq_false_of_ne (Ne.symm h), ih]

/-- Bumping one character leaves every other character's count alone. -/
lemma bump_lookup_ne (m : List (Char × ℕ)) (c d : Char) (h : d ≠ c) :
    (bump m c).lookup d = m.lookup d := by
  induction m with
  | nil => simp [bump, List.lookup, beq_false_of_ne h]
  | cons p rest ih =>
      obtain ⟨k, v⟩ := p
      by_cases hk : k = c
      · subst hk
        simp [bump, List.lookup, beq_false_of_ne h]
      · by_cases hdk : d = k
        · subst hdk
          simp [bump, List.lookup, hk]
        · simp [bump, List.lookup, hk, beq_false_of_ne hdk, ih]

/-- Bumping either keeps the key list or appends the new key at the
end. -/
lemma keys_bump (m : List (Char × ℕ)) (c : Char) :
    (bump m c).map Prod.fst =
      if c ∈ m.map Prod.fst then m.map Prod.fst
      else m.map Prod.fst ++ [c] := by
  induction m with
  | nil => simp [bump]
  | cons p rest ih =>
      obtain ⟨k, v⟩ := p
      by_cases h : k = c
      · subst h
        simp [bump]
      · simp only [bump, if_neg h, List.map_cons, ih]
        by_cases hc : c ∈ rest.map Prod.fst
        · rw [if_pos hc, if_pos (by simp [hc])]
        · rw [if_neg hc, if_neg (by simp [hc, Ne.symm h])]
          rfl

/-- Bumping preserves distinctness of the keys. -/
lemma nodup_keys_bump (m : List (Char × ℕ)) (c : Char)
    (h : (m.map Prod.fst).Nodup) : ((bump m c).map Prod.fst).Nodup := by
  rw [keys_bump]
  by_cases hc : c ∈ m.map Prod.fst
  · rw [if_pos hc]
    exact h
  · rw [if_neg hc]
    simp [List.nodup_append, h, hc]

/-- The counting loop, started from any dict, looks up to the old count
plus the number of occurrences, and to nothing for characters neither
seen nor already present. -/
lemma foldl_bump_lookup (l : List Char) :
    ∀ (m : List (Char × ℕ)) (c : Char),
      (l.foldl bump m).lookup c =
        if c ∈ l ∨ (m.lookup c).isSome then
          some ((m.lookup c).getD 0 + l.count c)
        else none := by
  induction l with
  | nil =>
      intro m c
      cases h : m.lookup c <;> simp [h]
  | cons a t ih =>
      intro m c
      simp only [List.foldl_cons]
      rw [ih (bump m a) c]
      by_cases hca : c = a
      · subst hca
        rw [bump_lookup_self]
        simp [List.count_cons, List.mem_cons]
        omega
      · rw [bump_lookup_ne m a c hca]
        by_cases hmem : c ∈ t ∨ (m.lookup c).isSome
        · rw [if_pos hmem, if_pos (by
            rcases hmem with h | h
            · exact Or.inl (List.mem_cons_of_mem a h)
            · exact Or.inr h)]
          simp [List.count_cons, hca]
        · rw [if_neg hmem, if_neg (by
            intro hcon
            rcases hcon with h | h
            · rcases List.mem_cons.mp h with h | h
              · exact hca h
              · exact hmem (Or.inl h)
            · exact hmem (Or.inr h))]

/-- The counts dict built by the loop maps exactly the characters that
occur to their occurrence counts. -/
lemma countChars_lookup (l : List Char) (c : Char) :
    (countChars l).lookup c = if c ∈ l then some (l.count c) else none := by
  rw [countChars, foldl_bump_lookup]
  simp [List.lookup]

/-- The counts dict has no duplicate keys. -/
lemma countChars_keys_nodup (l : List Char) :
    ((countChars l).map Prod.fst).Nodup := by
  suffices h : ∀ (l : List Char) (m : List (Char × ℕ)),
      (m.map Prod.fst).Nodup → ((l.foldl bump m).map Prod.fst).Nodup by
    exact h l [] (by simp)
  intro l
  induction l with
  | nil =>
      intro m hm
      simpa using hm
  | cons a t ih =>
      intro m hm
      exact ih _ (nodup_keys_bump m a hm)

/-- Mapping only the values of an association list commutes with
lookup. -/
lemma lookup_map_value (m : List (Char × ℕ)) (g : ℕ → ℚ) (c : Char) :
    (m.map (fun p => (p.1, g p.2))).lookup c = (m.lookup c).map g := by
  induction m with
  | nil => rfl
  | cons p rest ih =>
      obtain ⟨k, v⟩ := p
      by_cases h : c = k
      · subst h
        simp [List.lookup]
      · simp [List.lookup, h, beq_false_of_ne h, ih]

/-- C3: `calculate_nucleotide_frequency` maps exactly the distinct
characters occurring in the sequence (no restriction to A/T/G/C, no
duplicate keys) to their percentage of all characters, each rounded
independently to two decimals; the empty sequence yields an empty
mapping; with the spec's concrete example. -/
theorem calculate_nucleotide_frequency_correct :
    (∀ s : String,
      ((calculate_nucleotide_frequency s).map Prod.fst).Nodup) ∧
    (∀ (s : String) (c : Char),
      (calculate_nucleotide_frequency s).lookup c =
        if c ∈ s.data then
          some (round2 ((s.data.count c : ℚ) / (s.length : ℚ) * 100))
        else none) ∧
    calculate_nucleotide_frequency "" = [] ∧
    calculate_nucleotide_frequency "AATT" = [('A', 50), ('T', 50)] := by
  refine ⟨?_, ?_, rfl, ?_⟩
  · intro s
    rw [calculate_nucleotide_frequency]
    by_cases h : s.length = 0
    · simp [h]
    · rw [if_neg h]
      have hmap : ((countChars s.data).map (fun p =>
          (p.1, round2 ((p.2 : ℚ) / (s.length : ℚ) * 100)))).map Prod.fst =
          (countChars s.data).map Prod.fst := by
        rw [List.map_map]
        rfl
      rw [hmap]
      exact countChars_keys_nodup s.data
  · intro s c
    rw [calculate_nucleotide_frequency]
    by_cases h : s.length = 0
    · rw [if_pos h]
      have hd : s.data = [] := List.length_eq_zero.mp h
      simp [hd, List.lookup]
    · rw [if_neg h, lookup_map_value (countChars s.data)
        (fun n => round2 ((n : ℚ) / (s.length : ℚ) * 100)) c,
        countChars_lookup]
      by_cases hc : c ∈ s.data
      · simp [hc]
      · simp [hc]
  · have hcount : countChars ("AATT" : String).data = [('A', 2), ('T', 2)] := by
      decide
    have hlen : ("AATT" : String).length = 4 := by decide
    rw [calculate_nucleotide_frequency, if_neg (by decide), hcount, hlen]
    have h50 : round2 (((2 : ℕ) : ℚ) / ((4 : ℕ) : ℚ) * 100) = 50 := by
      have hv : ((2 : ℕ) : ℚ) / ((4 : ℕ) : ℚ) * 100 = ((50 : ℤ) : ℚ) := by
        norm_num
      rw [hv, round2_intCast]
      norm_num
    simp only [List.map_cons, List.map_nil, h50]

/-- C7: the analysis pass preserves the all-or-nothing shape of the
derived fields: starting from a store where every record is either fully
annotated or not annotated at all (the shape every record has at
creation, since the upsert leaves derived fields unset), after the pass
every record is still fully annotated or untouched — the pass always
writes all four derived fields of a selected record together, so no
record is ever left with a proper subset of them set. -/
theorem result_post_all_or_nothing
    (biotranslate : String → Except String String)
    (selected : List String) (store : List FastaEntry)
    (h : store.all allOrNothing = true) :
    (result_post biotranslate selected store).all allOrNothing = true := by
  rw [List.all_eq_true] at h ⊢
  intro e he
  rw [result_post, List.mem_map] at he
  obtain ⟨e0, he0, rfl⟩ := he
  by_cases hsel : e0.id ∈ selected
  · rw [if_pos hsel]
    simp [annotate_entry, allOrNothing]
  · rw [if_neg hsel]
    exact h e0 he0

/-- Witness for C7 at a concrete input: a two-record store, one fresh
record selected and one fresh record not selected. -/
theorem result_post_all_or_nothing_witness :
    ([⟨"s1", "d1", "ATGC", "f", none, none, none, none⟩,
      ⟨"s2", "d2", "GG", "f", none, none, none, none⟩] :
        List FastaEntry).all allOrNothing = true ∧
    (result_post (fun s => Except.ok s) ["s1"]
      [⟨"s1", "d1", "ATGC", "f", none, none, none, none⟩,
       ⟨"s2", "d2", "GG", "f", none, none, none, none⟩]).all
        allOrNothing = true :=
  ⟨by decide, result_post_all_or_nothing (fun s => Except.ok s) ["s1"]
    [⟨"s1", "d1", "ATGC", "f", none, none, none, none⟩,
     ⟨"s2", "d2", "GG", "f", none, none, none, none⟩] (by decide)⟩

/-- C8: the frame property of batch analysis.  Position by position, a
stored record whose id is selected is replaced by its annotation and
every other record is returned unchanged; and restricting the selected
ids to those actually present in the store gives the same result, so
selected ids with no matching record are skipped without any effect (the
pass is a total function, so no error is possible). -/
theorem result_post_frame (biotranslate : String → Except String String)
    (selected : List String) (store : List FastaEntry) (i : ℕ) :
    (result_post biotranslate selected store)[i]? =
      (store[i]?).map (fun e =>
        if e.id ∈ selected then annotate_entry biotranslate e else e) ∧
    result_post biotranslate selected store =
      result_post biotranslate
        (selected.filter (fun s => store.any (fun e => e.id == s)))
        store := by
  constructor
  · rw [result_post, List.getElem?_map]
  · rw [result_post, result_post]
    apply List.map_congr_left
    intro e he
    have hiff : e.id ∈ selected.filter (fun s =>
        store.any (fun x => x.id == s)) ↔ e.id ∈ selected := by
      rw [List.mem_filter]
      constructor
      · exact fun hx => hx.1
      · intro hx
        refine ⟨hx, ?_⟩
        rw [List.any_eq_true]
        exact ⟨e, he, by simp⟩
    by_cases hsel : e.id ∈ selected
    · rw [if_pos hsel, if_pos (hiff.mpr hsel)]
    · rw [if_neg hsel, if_neg (fun hx => hsel (hiff.mp hx))]

/-- Dropping `3 * (n + 1)` elements from a list with three explicit
heads is dropping `3 * n` from its tail past them. -/
lemma drop_three_cons (a b c : Char) (rest : List Char) (n : ℕ) :
    (a :: b :: c :: rest).drop (3 * (n + 1)) = rest.drop (3 * n) := by
  rw [show 3 * (n + 1) = (3 * n + 2) + 1 by ring, List.drop_succ_cons,
    show 3 * n + 2 = (3 * n + 1) + 1 by ring, List.drop_succ_cons,
    show 3 * n + 1 = 3 * n + 1 by rfl, List.drop_succ_cons]

/-- The translation loop emits one character per started triplet. -/
theorem translateChunks_length :
    ∀ l : List Char, (translateChunks l).length = (l.length + 2) / 3
  | [] => rfl
  | [_] => by simp [translateChunks]
  | [_, _] => by simp [translateChunks]
  | _ :: _ :: _ :: rest => by
      simp only [translateChunks, List.length_cons,
        translateChunks_length rest]
      omega

/-- The `i`-th output character of the translation loop is the table
lookup (default `'?'`) of the `i`-th slice `seq[3i:3i+3]`. -/
theorem translateChunks_getElem? :
    ∀ (l : List Char) (i : ℕ),
      (translateChunks l)[i]? =
        if 3 * i < l.length then
          some ((aa_table.lookup
            (String.mk ((l.drop (3 * i)).take 3))).getD '?')
        else none
  | [], i => by simp [translateChunks]
  | [a], 0 => by simp [translateChunks]
  | [a], (n + 1) => by
      simp only [translateChunks, List.getElem?_cons_succ,
        List.getElem?_nil, List.length_singleton, List.length_cons,
        List.length_nil]
      rw [if_neg (by omega)]
  | [a, b], 0 => by simp [translateChunks]
  | [a, b], (n + 1) => by
      simp only [translateChunks, List.getElem?_cons_succ,
        List.getElem?_nil, List.length_cons, List.length_nil]
      rw [if_neg (by omega)]
  | (a :: b :: c :: rest), 0 => by simp [translateChunks]
  | (a :: b :: c :: rest), (n + 1) => by
      have ih := translateChunks_getElem? rest n
      simp only [translateChunks, List.getElem?_cons_succ, ih,
        List.length_cons, drop_three_cons]
      by_cases hlt : 3 * n < rest.length
      · rw [if_pos hlt, if_pos (by omega)]
      · rw [if_neg hlt, if_neg (by omega)]

/-- C1 counterexample: the claim "for every sequence of length < 3 the
result is the empty string" fails on the code.  `Results.protein_translation`
slices `seq[i:i+3]` for every `i in range(0, len(seq), 3)`, so the
2-character input `"AT"` produces the 1-character output `"?"`, not
`""`. -/
theorem protein_translation_counterexample :
    ("AT" : String).length < 3 ∧ protein_translation "AT" ≠ "" :=
  ⟨by decide, by decide⟩

/-- C1 amended: the translation partitions the input into consecutive
slices of three characters from position 0, but the trailing partial
slice of length 1 or 2 is not dropped: it also goes through the
case-sensitive table lookup and, being absent from the table (every key
is an uppercase 3-letter codon over A/C/G/T), yields `'?'`.  So the
output has one character per started triplet, each the table lookup of
its slice with default `'?'`, the table is the 64-entry standard codon
table with `'*'` for the three stop codons, and the concrete examples
hold, including `"?"` for the short inputs the original claim said were
dropped. -/
theorem protein_translation_amended :
    (∀ seq : String,
      (protein_translation seq).length = (seq.length + 2) / 3) ∧
    (∀ (seq : String) (i : ℕ),
      ((protein_translation seq).data)[i]? =
        if 3 * i < seq.length then
          some ((aa_table.lookup
            (String.mk ((seq.data.drop (3 * i)).take 3))).getD '?')
        else none) ∧
    aa_table.length = 64 ∧
    aa_table.all (fun p => p.1.length == 3 &&
      p.1.data.all (fun c =>
        c == 'A' || c == 'C' || c == 'G' || c == 'T')) = true ∧
    aa_table.lookup "TAA" = some '*' ∧
    aa_table.lookup "TAG" = some '*' ∧
    aa_table.lookup "TGA" = some '*' ∧
    protein_translation "ATGAAATAG" = "MK*" ∧
    protein_translation "AT" = "?" ∧
    protein_translation "A" = "?" ∧
    protein_translation "atg" = "?" ∧
    protein_translation "ATGAXG" = "M?" := by
  refine ⟨?_, ?_, by decide, by decide, by decide, by decide, by decide,
    by decide, by decide, by decide, by decide, by decide⟩
  · intro seq
    exact translateChunks_length seq.data
  · intro seq i
    exact translateChunks_getElem? seq.data i
